import Mathlib

/-!
Verification development for the `vult` PIN-protected secret store.

The Rust sources are shallowly embedded: byte strings (`Vec<u8>`, `&str`,
`String`) become `List Nat` of values `< 256`; fallible operations return
`Except`; the stateful services become explicit state-passing functions;
randomness (salts, nonces, fresh ids, timestamps) is passed in as explicit
parameters.  The external cryptographic primitives (the `aes_gcm` and
`argon2` crates) are modelled by executable deterministic functions that
satisfy the contracts the repository relies on (AES-256-GCM: 12-byte nonce,
16-byte appended tag, decryption with the encrypting key and nonce inverts
encryption; Argon2id: a deterministic keyed hash of (parameters, password,
salt) producing 32 bytes).  Error payload strings are abstracted away:
error enums are modelled with payload-free constructors.
-/

/-- A list of `Nat` represents a byte string when every entry is `< 256`. -/
def Bytes (l : List Nat) : Prop := ∀ b ∈ l, b < 256

instance : DecidablePred Bytes := fun l =>
  List.decidableBAll (fun b => b < 256) l

/-- `CryptoError` from `src/crypto.rs` (payload strings abstracted). -/
inductive CryptoError where
  | keyDerivation
  | encryption
  | decryption
  | invalidKeyLength
  | invalidNonceLength
deriving DecidableEq

/-- `DbError` from `src/database.rs` (payload strings abstracted). -/
inductive DbError where
  | database
  | crypto : CryptoError → DbError
  | notFound
  | duplicate
  | invalidInput
  | incompatibleVersion
  | backupFailed
deriving DecidableEq

/-- `VaultError` from `src/error.rs` (payload strings abstracted). -/
inductive VaultError where
  | invalidPin
  | pinTooShort
  | pinTooLong
  | tooManyAttempts
  | notInitialized
  | alreadyInitialized
  | locked
  | keyDerivation
  | encryption
  | decryption
  | invalidKeyLength
  | invalidNonceLength
  | database
  | notFound
  | duplicateKey
  | incompatibleVersion
  | migrationFailed
  | backupFailed
  | invalidInput
deriving DecidableEq

/-- `EncryptedData` from `src/crypto.rs`: ciphertext (with appended
16-byte authentication tag) and the 12-byte nonce. -/
structure EncryptedData where
  ciphertext : List Nat
  nonce : List Nat
deriving DecidableEq

/-- Deterministic mixing of a byte list into a number, used by the models
of the external cryptographic primitives. -/
def hashList (l : List Nat) : Nat :=
  l.foldl (fun a b => (a * 131 + b + 1) % 4294967296) 7

/-- Model of the AES-256-GCM keystream: byte `i` of the keystream that the
cipher determined by `(key, nonce)` produces. -/
def ksByte (key nonce : List Nat) (i : Nat) : Nat :=
  (hashList key * 2654435761 + hashList nonce * 40503 + i * 97 + 131) % 256

theorem ksByte_lt (key nonce : List Nat) (i : Nat) : ksByte key nonce i < 256 :=
  Nat.mod_lt _ (by norm_num)

/-- Model of AES-CTR-style body encryption: byte-wise combination of the
plaintext with the keystream, starting at keystream index `i`. -/
def encBody (key nonce : List Nat) : List Nat → Nat → List Nat
  | [], _ => []
  | p :: rest, i => (p + ksByte key nonce i) % 256 :: encBody key nonce rest (i + 1)

/-- Inverse of `encBody`. -/
def decBody (key nonce : List Nat) : List Nat → Nat → List Nat
  | [], _ => []
  | c :: rest, i => (c + 256 - ksByte key nonce i) % 256 :: decBody key nonce rest (i + 1)

/-- Model of the 16-byte GCM authentication tag over `(key, nonce, body)`. -/
def tagBytes (key nonce body : List Nat) : List Nat :=
  (List.range 16).map fun i =>
    (hashList key * 3 + hashList nonce * 5 + hashList body * 7 + i * 11 + 17) % 256

/-- `encrypt` from `src/crypto.rs` (the AES-256-GCM call modelled as above).
The random 96-bit nonce the source draws from `OsRng` is passed in
explicitly.  The source's `Result` is always `Ok` for well-formed inputs
(the only error branch is an underlying-primitive failure), so the model
returns the blob directly. -/
def encrypt (plaintext : List Nat) (key : List Nat) (nonce : List Nat) : EncryptedData :=
  let body := encBody key nonce plaintext 0
  ⟨body ++ tagBytes key nonce body, nonce⟩

/-- `decrypt` from `src/crypto.rs`: rejects a nonce that is not exactly
12 bytes with `InvalidNonceLength`, rejects a ciphertext shorter than the
16-byte tag or with a wrong tag with `Decryption` (the AEAD authentication
failure), otherwise inverts `encrypt`. -/
def decrypt (encrypted : EncryptedData) (key : List Nat) : Except CryptoError (List Nat) :=
  if encrypted.nonce.length ≠ 12 then .error .invalidNonceLength
  else if encrypted.ciphertext.length < 16 then .error .decryption
  else
    let body := encrypted.ciphertext.take (encrypted.ciphertext.length - 16)
    let tag := encrypted.ciphertext.drop (encrypted.ciphertext.length - 16)
    if tag = tagBytes key encrypted.nonce body then .ok (decBody key encrypted.nonce body 0)
    else .error .decryption

/-- Model of the external Argon2id primitive: a deterministic function of
the cost parameters, the password bytes and the salt bytes, producing 32
pseudorandom-looking bytes. -/
def argon2id (memCost passes lanes : Nat) (password salt : List Nat) : List Nat :=
  (List.range 32).map fun i =>
    (hashList password * 2654435761 + hashList salt * 40503 +
      (memCost + 19 * passes + 131 * lanes) * 7919 + i * 104729 + 1299709) % 256

/-- `derive_key_from_pin` from `src/crypto.rs`: rejects a PIN shorter than
6 bytes, otherwise Argon2id with memory 65536 KiB-units, 3 passes,
4 lanes.  (The remaining source error branches — salt encoding and a
short hash output — cannot fire for the 32-byte salts the program uses.) -/
def derive_key_from_pin (pin : List Nat) (salt : List Nat) : Except CryptoError (List Nat) :=
  if pin.length < 6 then .error .keyDerivation
  else .ok (argon2id 65536 3 4 pin salt)

/-- `derive_per_key_encryption_key` from `src/crypto.rs`: the context is
`app_name ++ "|" ++ key_name` (byte 124 is `'|'`), the Argon2id "password"
is `master_key bytes ++ context bytes`, with lighter parameters
(32768, 2 passes, 2 lanes). -/
def derive_per_key_encryption_key (master_key app_name key_name salt : List Nat) : List Nat :=
  argon2id 32768 2 2 (master_key ++ (app_name ++ [124] ++ key_name)) salt

theorem argon2id_length (m p l : Nat) (pw s : List Nat) : (argon2id m p l pw s).length = 32 := by
  simp [argon2id]

theorem argon2id_bytes (m p l : Nat) (pw s : List Nat) : Bytes (argon2id m p l pw s) := by
  intro b hb
  simp only [argon2id, List.mem_map] at hb
  obtain ⟨i, _, rfl⟩ := hb
  exact Nat.mod_lt _ (by norm_num)

theorem encBody_length (key nonce : List Nat) (l : List Nat) (i : Nat) :
    (encBody key nonce l i).length = l.length := by
  induction l generalizing i with
  | nil => rfl
  | cons p rest ih => simp [encBody, ih]

theorem encDecByte (p k : Nat) (hp : p < 256) (hk : k < 256) :
    ((p + k) % 256 + 256 - k) % 256 = p := by
  rcases Nat.lt_or_ge (p + k) 256 with h | h
  · rw [Nat.mod_eq_of_lt h]
    have h2 : p + k + 256 - k = p + 256 := by omega
    rw [h2, Nat.add_mod_right, Nat.mod_eq_of_lt hp]
  · have h512 : p + k < 512 := by omega
    have hm : (p + k) % 256 = p + k - 256 := by
      rw [Nat.mod_eq_sub_mod h, Nat.mod_eq_of_lt (by omega)]
    rw [hm]
    have h2 : p + k - 256 + 256 - k = p := by omega
    rw [h2, Nat.mod_eq_of_lt hp]

theorem decBody_encBody (key nonce : List Nat) (l : List Nat) (i : Nat) (hl : Bytes l) :
    decBody key nonce (encBody key nonce l i) i = l := by
  induction l generalizing i with
  | nil => rfl
  | cons p rest ih =>
    have hp : p < 256 := hl p (List.mem_cons_self p rest)
    have hrest : Bytes rest := fun b hb => hl b (List.mem_cons_of_mem p hb)
    simp only [encBody, decBody]
    rw [encDecByte p (ksByte key nonce i) hp (ksByte_lt key nonce i), ih (i + 1) hrest]

theorem decrypt_encrypt (m key nonce : List Nat) (hm : Bytes m) (hn : nonce.length = 12) :
    decrypt (encrypt m key nonce) key = .ok m := by
  unfold encrypt decrypt
  simp only [hn]
  have hbl : (encBody key nonce m 0).length = m.length := encBody_length key nonce m 0
  have hct : ((encBody key nonce m 0) ++ tagBytes key nonce (encBody key nonce m 0)).length
      = m.length + 16 := by
    simp [hbl, tagBytes]
  rw [if_neg (by norm_num), if_neg (by omega)]
  have hsub : (encBody key nonce m 0 ++ tagBytes key nonce (encBody key nonce m 0)).length - 16
      = (encBody key nonce m 0).length := by omega
  rw [hsub, List.take_left, List.drop_left, if_pos rfl, decBody_encBody key nonce m 0 hm]

/-- Model of `String::from_utf8` validity (the UTF-8 well-formedness check
of the Rust standard library) over byte lists. -/
def isCont (b : Nat) : Bool := 128 ≤ b && b ≤ 191

/-- UTF-8 validity of a byte list, following the standard byte-range table. -/
def utf8Valid : List Nat → Bool
  | [] => true
  | b :: rest =>
    if b ≤ 127 then utf8Valid rest
    else if 194 ≤ b && b ≤ 223 then
      match rest with
      | b1 :: r => isCont b1 && utf8Valid r
      | [] => false
    else if b = 224 then
      match rest with
      | b1 :: b2 :: r => (160 ≤ b1 && b1 ≤ 191) && isCont b2 && utf8Valid r
      | _ => false
    else if 225 ≤ b && b ≤ 236 then
      match rest with
      | b1 :: b2 :: r => isCont b1 && isCont b2 && utf8Valid r
      | _ => false
    else if b = 237 then
      match rest with
      | b1 :: b2 :: r => (128 ≤ b1 && b1 ≤ 159) && isCont b2 && utf8Valid r
      | _ => false
    else if 238 ≤ b && b ≤ 239 then
      match rest with
      | b1 :: b2 :: r => isCont b1 && isCont b2 && utf8Valid r
      | _ => false
    else if b = 240 then
      match rest with
      | b1 :: b2 :: b3 :: r => (144 ≤ b1 && b1 ≤ 191) && isCont b2 && isCont b3 && utf8Valid r
      | _ => false
    else if 241 ≤ b && b ≤ 243 then
      match rest with
      | b1 :: b2 :: b3 :: r => isCont b1 && isCont b2 && isCont b3 && utf8Valid r
      | _ => false
    else if b = 244 then
      match rest with
      | b1 :: b2 :: b3 :: r => (128 ≤ b1 && b1 ≤ 143) && isCont b2 && isCont b3 && utf8Valid r
      | _ => false
    else false

/-- Decimal digit characters of a natural number, as ASCII byte values
(models Rust's `format!("{}")` of an integer).  Structured with explicit
fuel (the number itself, always sufficient) so that it reduces inside the
kernel. -/
def natToDecCharsAux : Nat → Nat → List Nat
  | 0, n => [48 + n % 10]
  | fuel + 1, n =>
    if n < 10 then [48 + n]
    else natToDecCharsAux fuel (n / 10) ++ [48 + n % 10]

/-- Decimal digit characters of a natural number (ASCII bytes). -/
def natToDecChars (n : Nat) : List Nat := natToDecCharsAux n n

theorem natToDecCharsAux_ne_nil (fuel n : Nat) : natToDecCharsAux fuel n ≠ [] := by
  cases fuel with
  | zero => simp [natToDecCharsAux]
  | succ f =>
    rw [natToDecCharsAux]
    split
    · simp
    · simp

theorem natToDecChars_ne_nil (n : Nat) : natToDecChars n ≠ [] :=
  natToDecCharsAux_ne_nil n n

theorem natToDecCharsAux_digits (fuel n : Nat) :
    ∀ b ∈ natToDecCharsAux fuel n, 48 ≤ b ∧ b ≤ 57 := by
  induction fuel generalizing n with
  | zero =>
    intro b hb
    simp only [natToDecCharsAux, List.mem_singleton] at hb
    have := Nat.mod_lt n (show 0 < 10 by norm_num)
    omega
  | succ f ih =>
    rw [natToDecCharsAux]
    split
    · intro b hb
      rename_i h
      simp only [List.mem_singleton] at hb
      omega
    · intro b hb
      rw [List.mem_append] at hb
      rcases hb with hb | hb
      · exact ih (n / 10) b hb
      · simp only [List.mem_singleton] at hb
        have := Nat.mod_lt n (show 0 < 10 by norm_num)
        omega

theorem natToDecChars_digits (n : Nat) : ∀ b ∈ natToDecChars n, 48 ≤ b ∧ b ≤ 57 :=
  natToDecCharsAux_digits n n

/-- Value of an ASCII decimal digit byte (models `char::to_digit`-style
checking inside Rust's integer parsing). -/
def decCharVal (b : Nat) : Option Nat :=
  if 48 ≤ b ∧ b ≤ 57 then some (b - 48) else none

/-- Accumulating decimal parser over digit bytes. -/
def parseDecAux : List Nat → Nat → Option Nat
  | [], acc => some acc
  | b :: rest, acc =>
    match decCharVal b with
    | some d => parseDecAux rest (acc * 10 + d)
    | none => none

/-- Models Rust's `str::parse::<u8>`: nonempty all-digit input whose value
fits in a `u8`. -/
def parseU8 (l : List Nat) : Option Nat :=
  if l = [] then none
  else
    match parseDecAux l 0 with
    | some n => if n ≤ 255 then some n else none
    | none => none

theorem parseDecAux_append (xs ys : List Nat) (acc : Nat) :
    parseDecAux (xs ++ ys) acc =
      match parseDecAux xs acc with
      | some a => parseDecAux ys a
      | none => none := by
  induction xs generalizing acc with
  | nil => rfl
  | cons b rest ih =>
    simp only [List.cons_append, parseDecAux]
    cases decCharVal b with
    | none => rfl
    | some d => exact ih (acc * 10 + d)

theorem parseDecAux_natToDecCharsAux (fuel : Nat) : ∀ n, n ≤ fuel → ∀ acc,
    parseDecAux (natToDecCharsAux fuel n) acc
      = some (acc * 10 ^ (natToDecCharsAux fuel n).length + n) := by
  induction fuel with
  | zero =>
    intro n hn acc
    interval_cases n
    simp [natToDecCharsAux, parseDecAux, decCharVal]
  | succ f ih =>
    intro n hn acc
    rw [natToDecCharsAux]
    split
    · rename_i h
      simp only [parseDecAux, decCharVal, if_pos (by omega : 48 ≤ 48 + n ∧ 48 + n ≤ 57)]
      simp only [List.length_singleton, pow_one]
      congr 1
      omega
    · rename_i h
      have hdivle : n / 10 ≤ f := by
        have := Nat.div_lt_self (show 0 < n by omega) (show 1 < 10 by norm_num)
        omega
      rw [parseDecAux_append]
      rw [ih (n / 10) hdivle acc]
      have hmod := Nat.mod_lt n (show 0 < 10 by norm_num)
      simp only [parseDecAux, decCharVal, if_pos (by omega : 48 ≤ 48 + n % 10 ∧ 48 + n % 10 ≤ 57)]
      simp only [List.length_append, List.length_singleton]
      congr 1
      have : 48 + n % 10 - 48 = n % 10 := by omega
      rw [this, pow_succ]
      have hdm := Nat.div_add_mod n 10
      ring_nf
      omega

theorem parseU8_natToDecChars (n : Nat) (h : n ≤ 255) : parseU8 (natToDecChars n) = some n := by
  rw [parseU8, if_neg (natToDecChars_ne_nil n), natToDecChars,
    parseDecAux_natToDecCharsAux n n (le_refl n) 0]
  simp [h]

/-- Models Rust's `str::split(':')` over byte lists (byte 58 is `':'`). -/
def splitOnColon : List Nat → List (List Nat)
  | [] => [[]]
  | b :: rest =>
    let s := splitOnColon rest
    if b = 58 then [] :: s
    else
      match s with
      | [] => [[b]]
      | h :: t => (b :: h) :: t

theorem splitOnColon_ne_nil (l : List Nat) : splitOnColon l ≠ [] := by
  cases l with
  | nil => simp [splitOnColon]
  | cons b rest =>
    rw [splitOnColon]
    split
    · simp
    · split
      · simp
      · simp

theorem splitOnColon_no_colon (l : List Nat) (h : 58 ∉ l) : splitOnColon l = [l] := by
  induction l with
  | nil => rfl
  | cons b rest ih =>
    have hb : b ≠ 58 := fun hc => h (hc ▸ List.mem_cons_self b rest)
    have hrest : 58 ∉ rest := fun hc => h (List.mem_cons_of_mem b hc)
    rw [splitOnColon]
    simp only [if_neg hb, ih hrest]

theorem splitOnColon_append (l r : List Nat) (h : 58 ∉ l) :
    splitOnColon (l ++ 58 :: r) = l :: splitOnColon r := by
  induction l with
  | nil => simp [splitOnColon]
  | cons b rest ih =>
    have hb : b ≠ 58 := fun hc => h (hc ▸ List.mem_cons_self b rest)
    have hrest : 58 ∉ rest := fun hc => h (List.mem_cons_of_mem b hc)
    rw [List.cons_append, splitOnColon]
    simp only [if_neg hb, ih hrest]

/-- One hexadecimal digit as an ASCII byte (`0-9a-f`), as produced by the
`hex` crate. -/
def hexDigitChar (d : Nat) : Nat := if d < 10 then 48 + d else 87 + d

/-- Models `hex::encode` over a byte list: two lowercase hex characters per
byte. -/
def hexEncode (l : List Nat) : List Nat :=
  l.flatMap fun b => [hexDigitChar (b / 16), hexDigitChar (b % 16)]

theorem hexEncode_no_colon (l : List Nat) (hl : Bytes l) : 58 ∉ hexEncode l := by
  intro hc
  simp only [hexEncode, List.mem_flatMap] at hc
  obtain ⟨b, hb, hmem⟩ := hc
  have hblt : b < 256 := hl b hb
  have h16 : b / 16 < 16 := Nat.div_lt_of_lt_mul (by omega)
  have h16m : b % 16 < 16 := Nat.mod_lt _ (by norm_num)
  simp only [List.mem_cons, List.mem_singleton, List.not_mem_nil, or_false] at hmem
  rcases hmem with h | h <;> (rw [hexDigitChar] at h; split at h <;> omega)

/-- The `pin_hash` layout of `AuthService::init_vault`
(`src/services/auth_service.rs`): `format!("${salt_hex}:{first_byte}")`,
as bytes (36 is `'$'`, 58 is `':'`). -/
def formatPinHash (saltHex : List Nat) (firstByte : Nat) : List Nat :=
  (36 :: saltHex) ++ 58 :: natToDecChars firstByte

/-- The verification-byte extraction of `AuthService::unlock`:
split the stored hash on `':'`, parse part 1 as a `u8`, defaulting to 255
(`unwrap_or(255)`). -/
def parseExpectedByte (storedHash : List Nat) : Nat :=
  match (splitOnColon storedHash).get? 1 with
  | some s => (parseU8 s).getD 255
  | none => 255

theorem parseExpectedByte_format (salt : List Nat) (hs : Bytes salt) (b : Nat) (hb : b ≤ 255) :
    parseExpectedByte (formatPinHash (hexEncode salt) b) = b := by
  have hnc : 58 ∉ 36 :: hexEncode salt := by
    intro hc
    rcases List.mem_cons.mp hc with h | h
    · omega
    · exact hexEncode_no_colon salt hs h
  have hnd : 58 ∉ natToDecChars b := by
    intro hc
    have := natToDecChars_digits b 58 hc
    omega
  rw [parseExpectedByte, formatPinHash, splitOnColon_append _ _ hnc, splitOnColon_no_colon _ hnd]
  simp only [List.get?_cons_succ, List.get?_cons_zero]
  rw [parseU8_natToDecChars b hb]
  rfl

/-- `PinValidationError` from `src/core/types.rs`. -/
inductive PinValidationError where
  | tooShort
  | tooLong
  | invalidCharacters
deriving DecidableEq

/-- `validate_pin` from `src/core/types.rs`: length in `[6, 64]` bytes and
only printable ASCII (`is_ascii_graphic` or space, i.e. bytes 32..126). -/
def validate_pin (pin : List Nat) : Except PinValidationError Unit :=
  if pin.length < 6 then .error .tooShort
  else if pin.length > 64 then .error .tooLong
  else if ∀ b ∈ pin, 32 ≤ b ∧ b ≤ 126 then .ok ()
  else .error .invalidCharacters

/-- The single `vault_config` row (`salt BLOB`, `pin_hash TEXT`); the
`created_at` column plays no role in any claim and is omitted. -/
structure VaultConfigRow where
  salt : List Nat
  pinHash : List Nat
deriving DecidableEq

/-- The in-memory state of `AuthService` (`src/services/auth_service.rs`)
together with the `vault_config` table it reads and writes.
`configTable` records whether the `vault_config` TABLE exists: that is
what `is_initialized` checks (via `sqlite_master`), and a `SELECT` on a
nonexistent table fails with a database error.  `config` is the table's
singleton row (`id = 1`), when present. -/
structure AuthState where
  configTable : Bool
  config : Option VaultConfigRow
  vaultKey : Option (List Nat)
  isUnlocked : Bool
  failedAttempts : Nat
deriving DecidableEq

/-- The state of a freshly constructed `AuthService` over an empty
database: no `vault_config` table. -/
def initialState : AuthState := ⟨false, none, none, false, 0⟩

/-- `AuthService::init_vault`: validate the PIN, fail with
`AlreadyInitialized` if the `vault_config` table already exists (that is
what `is_initialized` checks), derive the master key from the supplied
fresh `salt`, create the table and insert the salt and the first-byte
verification hash, and auto-unlock.  Returns the result together with
the successor state. -/
def init_vault (st : AuthState) (pin salt : List Nat) :
    Except VaultError Unit × AuthState :=
  match validate_pin pin with
  | .error .tooShort => (.error .pinTooShort, st)
  | .error .tooLong => (.error .pinTooLong, st)
  | .error .invalidCharacters => (.error .invalidInput, st)
  | .ok () =>
    if st.configTable then (.error .alreadyInitialized, st)
    else
      match derive_key_from_pin pin salt with
      | .error _ => (.error .keyDerivation, st)
      | .ok vk =>
        let pinHash := formatPinHash (hexEncode salt) (vk.getD 0 0)
        (.ok (), { st with
          configTable := true
          config := some ⟨salt, pinHash⟩
          vaultKey := some vk
          isUnlocked := true })

/-- `AuthService::unlock`: rate-limit check (10 cumulative failures),
then `SELECT salt, pin_hash FROM vault_config WHERE id = 1` — on a
never-initialized vault the table itself does not exist, the statement
fails to prepare (`no such table`) and the error is mapped to `Database`;
only when the table exists but the row is absent does `fetch_optional`
return `None` and the `ok_or` produce `NotInitialized`.  Then check the
stored salt length, derive the key from the PIN, compare the first byte
of the derived key against the parsed verification byte; a mismatch
increments `failed_attempts` and fails with `InvalidPin`; success resets
the counter, stores the key and unlocks.  The exponential-backoff sleep
only delays and is not part of the state. -/
def unlock (st : AuthState) (pin : List Nat) : Except VaultError Unit × AuthState :=
  if st.failedAttempts ≥ 10 then (.error .tooManyAttempts, st)
  else if st.configTable = false then (.error .database, st)
  else
    match st.config with
    | none => (.error .notInitialized, st)
    | some cfg =>
      if cfg.salt.length ≠ 32 then (.error .database, st)
      else
        match derive_key_from_pin pin cfg.salt with
        | .error _ => (.error .keyDerivation, st)
        | .ok vk =>
          if vk.getD 0 0 ≠ parseExpectedByte cfg.pinHash then
            (.error .invalidPin, { st with failedAttempts := st.failedAttempts + 1 })
          else
            (.ok (), { st with
              failedAttempts := 0
              vaultKey := some vk
              isUnlocked := true })

/-- `AuthService::lock`: clear the key and the unlocked flag. -/
def lock (st : AuthState) : Except VaultError Unit × AuthState :=
  (.ok (), { st with vaultKey := none, isUnlocked := false })

/-- `AuthService::get_vault_key`: the master key, or `Locked`. -/
def get_vault_key (st : AuthState) : Except VaultError (List Nat) :=
  match st.vaultKey with
  | some k => .ok k
  | none => .error .locked

/-- `AuthService::change_pin`: validate the new PIN's length, verify the
old PIN via `unlock`, derive a new key from the fresh `new_salt`, replace
the stored salt/verification hash and the in-memory key.  Does not
re-encrypt stored secrets. -/
def change_pin (st : AuthState) (old_pin new_pin new_salt : List Nat) :
    Except VaultError Unit × AuthState :=
  if new_pin.length < 6 then (.error .pinTooShort, st)
  else if new_pin.length > 64 then (.error .pinTooLong, st)
  else
    match unlock st old_pin with
    | (.error e, st') => (.error e, st')
    | (.ok (), st') =>
      match derive_key_from_pin new_pin new_salt with
      | .error _ => (.error .keyDerivation, st')
      | .ok vk =>
        let newHash := formatPinHash (hexEncode new_salt) (vk.getD 0 0)
        (.ok (), { st' with
          config := st'.config.map fun _ => ⟨new_salt, newHash⟩
          vaultKey := some vk })

/-- `AuthService::reset_failed_attempts`. -/
def reset_failed_attempts (st : AuthState) : AuthState :=
  { st with failedAttempts := 0 }

/-- The auth states reachable from a fresh service over an empty database
by the public operations, with arbitrary arguments. -/
inductive Reachable : AuthState → Prop where
  | start : Reachable initialState
  | step_init (st : AuthState) (pin salt : List Nat) :
      Reachable st → Reachable (init_vault st pin salt).2
  | step_unlock (st : AuthState) (pin : List Nat) :
      Reachable st → Reachable (unlock st pin).2
  | step_lock (st : AuthState) : Reachable st → Reachable (lock st).2
  | step_change_pin (st : AuthState) (old_pin new_pin new_salt : List Nat) :
      Reachable st → Reachable (change_pin st old_pin new_pin new_salt).2
  | step_reset (st : AuthState) : Reachable st → Reachable (reset_failed_attempts st)

theorem unlock_preserves_configTable (st : AuthState) (pin : List Nat) :
    (unlock st pin).2.configTable = st.configTable := by
  rw [unlock]
  by_cases h10 : st.failedAttempts ≥ 10
  · rw [if_pos h10]
  · rw [if_neg h10]
    by_cases htab : st.configTable = false
    · rw [if_pos htab]
    · rw [if_neg htab]
      cases hc : st.config with
      | none => rfl
      | some cfg =>
        dsimp only
        by_cases hs : cfg.salt.length ≠ 32
        · rw [if_pos hs]
        · rw [if_neg hs]
          cases derive_key_from_pin pin cfg.salt with
          | error e => rfl
          | ok vk =>
            dsimp only
            by_cases hb : vk.getD 0 0 ≠ parseExpectedByte cfg.pinHash
            · rw [if_pos hb]
            · rw [if_neg hb]

theorem unlock_attempts_of_no_table (st : AuthState) (pin : List Nat)
    (h : st.configTable = false) :
    (unlock st pin).2.failedAttempts = st.failedAttempts := by
  rw [unlock]
  by_cases h10 : st.failedAttempts ≥ 10
  · rw [if_pos h10]
  · rw [if_neg h10, if_pos h]

/-- In every reachable state, a never-initialized vault (no
`vault_config` table) has a zero failed-attempt counter (the counter is
only incremented after the stored config row has been read, which
requires the table). -/
theorem reachable_no_table_attempts (st : AuthState) (h : Reachable st) :
    st.configTable = false → st.failedAttempts = 0 := by
  induction h with
  | start => intro _; rfl
  | step_init st pin salt _ ih =>
    rw [init_vault]
    cases hv : validate_pin pin with
    | error e => cases e <;> exact ih
    | ok u =>
      cases u
      simp only
      by_cases hcs : st.configTable = true
      · rw [if_pos hcs]; exact ih
      · rw [if_neg hcs]
        cases derive_key_from_pin pin salt with
        | error _ => exact ih
        | ok vk => intro hc; simp at hc
  | step_unlock st pin _ ih =>
    intro hc
    have hc' : st.configTable = false := by
      rw [← unlock_preserves_configTable st pin]; exact hc
    rw [unlock_attempts_of_no_table st pin hc']
    exact ih hc'
  | step_lock st _ ih => exact ih
  | step_change_pin st old_pin new_pin new_salt _ ih =>
    rw [change_pin]
    by_cases h1 : new_pin.length < 6
    · rw [if_pos h1]; exact ih
    · rw [if_neg h1]
      by_cases h2 : new_pin.length > 64
      · rw [if_pos h2]; exact ih
      · rw [if_neg h2]
        cases hu : unlock st old_pin with
        | mk r st' =>
          have htab : st'.configTable = st.configTable := by
            have := unlock_preserves_configTable st old_pin
            rw [hu] at this
            exact this
          have hatt : st.configTable = false → st'.failedAttempts = st.failedAttempts := by
            intro hn
            have := unlock_attempts_of_no_table st old_pin hn
            rw [hu] at this
            exact this
          cases r with
          | error e =>
            simp only
            intro hc
            rw [htab] at hc
            rw [hatt hc]
            exact ih hc
          | ok u =>
            cases u
            simp only
            cases derive_key_from_pin new_pin new_salt with
            | error _ =>
              intro hc
              rw [htab] at hc
              rw [hatt hc]
              exact ih hc
            | ok vk =>
              simp only
              intro hc
              rw [htab] at hc
              rw [hatt hc]
              exact ih hc
  | step_reset st _ ih => intro _; rfl

/-- A row of the `api_keys` table (schema v2, `VaultDb::init_schema` in
`src/database.rs`).  `id` is the opaque UUID primary key, modelled as a
`Nat`; `app_name` is nullable; `UNIQUE(key_name)` is enforced by the
operations below. -/
structure ApiKeyRow where
  id : Nat
  app_name : Option (List Nat)
  key_name : List Nat
  api_url : Option (List Nat)
  description : Option (List Nat)
  encrypted_key_value : List Nat
  nonce : List Nat
  key_salt : List Nat
  created_at : Int
  updated_at : Int
deriving DecidableEq

/-- `ApiKey` from `src/services/key_service.rs`: a row together with its
decrypted value (timestamps kept as raw integers). -/
structure ApiKey where
  id : Nat
  app_name : Option (List Nat)
  key_name : List Nat
  key_value : List Nat
  api_url : Option (List Nat)
  description : Option (List Nat)
  created_at : Int
  updated_at : Int
deriving DecidableEq

/-- `ApiKeyMetadata` from `src/services/key_service.rs`. -/
structure ApiKeyMetadata where
  id : Nat
  app_name : Option (List Nat)
  key_name : List Nat
  api_url : Option (List Nat)
  description : Option (List Nat)
  created_at : Int
  updated_at : Int
deriving DecidableEq

/-- `UpdateKeyRequest` from `src/services/key_service.rs`: outer `none`
means "keep existing". -/
structure UpdateKeyRequest where
  app_name : Option (Option (List Nat)) := none
  key_name : Option (List Nat) := none
  key_value : Option (List Nat) := none
  api_url : Option (Option (List Nat)) := none
  description : Option (Option (List Nat)) := none
deriving DecidableEq

/-- `CryptoService::encrypt_api_key`: derive the per-key key from the
master key, the `(app_name, key_name)` context and the fresh `salt`,
encrypt with the fresh `nonce`, return the blob and the salt. -/
def encrypt_api_key (value master_key app_name key_name salt nonce : List Nat) :
    EncryptedData × List Nat :=
  (encrypt value (derive_per_key_encryption_key master_key app_name key_name salt) nonce, salt)

/-- `CryptoService::decrypt_api_key`: derive the per-key key, decrypt, and
check the plaintext is valid UTF-8 (`String::from_utf8`). -/
def decrypt_api_key (encrypted : EncryptedData) (master_key app_name key_name salt : List Nat) :
    Except VaultError (List Nat) :=
  match decrypt encrypted (derive_per_key_encryption_key master_key app_name key_name salt) with
  | .error _ => .error .decryption
  | .ok v => if utf8Valid v then .ok v else .error .decryption

/-- The row filter of `KeyService::get`'s SQL query:
`(app_name = ?1 OR (app_name IS NULL AND ?1 = '')) AND key_name = ?2`
(SQL `NULL = x` is not true, so a `NULL` row only matches the empty-string
query). -/
def rowMatchesQuery (r : ApiKeyRow) (app_name key_name : List Nat) : Bool :=
  (match r.app_name with
   | some a => a == app_name
   | none => app_name == []) && r.key_name == key_name

/-- `KeyService::require_unlocked`. -/
def require_unlocked (auth : AuthState) : Except VaultError Unit :=
  if auth.isUnlocked then .ok () else .error .locked

/-- Projection of a stored row to its metadata view. -/
def toMetadata (r : ApiKeyRow) : ApiKeyMetadata :=
  ⟨r.id, r.app_name, r.key_name, r.api_url, r.description, r.created_at, r.updated_at⟩

namespace KeyService

/-- `KeyService::create`: refuse while locked, encrypt the value under the
`(app_name, key_name)` context (empty string for a missing app name) with
the fresh `salt`/`nonce`, and insert; a `UNIQUE` violation (duplicate
`key_name`, or duplicate primary key `id`) is mapped to `DuplicateKey`.
The fresh UUID `id` and the timestamp `now` are passed in explicitly. -/
def create (auth : AuthState) (db : List ApiKeyRow) (app_name : Option (List Nat))
    (key_name key_value : List Nat) (api_url description : Option (List Nat))
    (salt nonce : List Nat) (id : Nat) (now : Int) :
    Except VaultError (Nat × List ApiKeyRow) :=
  match require_unlocked auth with
  | .error e => .error e
  | .ok () =>
    match auth.vaultKey with
    | none => .error .locked
    | some mk =>
      let ek := encrypt_api_key key_value mk (app_name.getD []) key_name salt nonce
      if db.any fun r => r.id == id || r.key_name == key_name then .error .duplicateKey
      else .ok (id, db ++ [⟨id, app_name, key_name, api_url, description,
        ek.1.ciphertext, ek.1.nonce, ek.2, now, now⟩])

/-- `KeyService::get`: refuse while locked, find the first row matching
the `(app_name, key_name)` query (`NotFound` when absent), rebuild the
salt (a stored salt that is not exactly 32 bytes is replaced by zeros),
and decrypt under the row's own stored context. -/
def get (auth : AuthState) (db : List ApiKeyRow) (app_name key_name : List Nat) :
    Except VaultError ApiKey :=
  match require_unlocked auth with
  | .error e => .error e
  | .ok () =>
    match auth.vaultKey with
    | none => .error .locked
    | some mk =>
      match db.find? (fun r => rowMatchesQuery r app_name key_name) with
      | none => .error .notFound
      | some row =>
        let saltArr := if row.key_salt.length = 32 then row.key_salt else List.replicate 32 0
        match decrypt_api_key ⟨row.encrypted_key_value, row.nonce⟩ mk
            (row.app_name.getD []) row.key_name saltArr with
        | .error e => .error e
        | .ok v => .ok ⟨row.id, row.app_name, row.key_name, v, row.api_url,
            row.description, row.created_at, row.updated_at⟩

/-- `KeyService::get_by_id`: like `get`, but looked up by primary key. -/
def get_by_id (auth : AuthState) (db : List ApiKeyRow) (id : Nat) :
    Except VaultError ApiKey :=
  match require_unlocked auth with
  | .error e => .error e
  | .ok () =>
    match auth.vaultKey with
    | none => .error .locked
    | some mk =>
      match db.find? (fun r => r.id == id) with
      | none => .error .notFound
      | some row =>
        let saltArr := if row.key_salt.length = 32 then row.key_salt else List.replicate 32 0
        match decrypt_api_key ⟨row.encrypted_key_value, row.nonce⟩ mk
            (row.app_name.getD []) row.key_name saltArr with
        | .error e => .error e
        | .ok v => .ok ⟨row.id, row.app_name, row.key_name, v, row.api_url,
            row.description, row.created_at, row.updated_at⟩

/-- `KeyService::list`: metadata of every row, no decryption.  (The SQL
`ORDER BY` clause is abstracted to stored order; no claim depends on the
ordering of the returned metadata.) -/
def list (auth : AuthState) (db : List ApiKeyRow) :
    Except VaultError (List ApiKeyMetadata) :=
  match require_unlocked auth with
  | .error e => .error e
  | .ok () => .ok (db.map toMetadata)

/-- ASCII lowercasing, as used by SQLite's case-insensitive `LIKE`. -/
def lowerByte (b : Nat) : Nat := if 65 ≤ b ∧ b ≤ 90 then b + 32 else b

/-- Whether `needle` starts `hay`. -/
def leadsWith : List Nat → List Nat → Bool
  | [], _ => true
  | _ :: _, [] => false
  | a :: as, b :: bs => a == b && leadsWith as bs

/-- Whether `needle` occurs contiguously inside `hay`. -/
def containsSub (needle hay : List Nat) : Bool :=
  leadsWith needle hay ||
    match hay with
    | [] => false
    | _ :: rest => containsSub needle rest

/-- SQL `field LIKE '%query%'` with SQLite's ASCII case-insensitivity; a
`NULL` field never matches.  (`%`/`_` wildcards inside the query itself
are not modelled; no claim supplies them.) -/
def likeField (field : Option (List Nat)) (query : List Nat) : Bool :=
  match field with
  | none => false
  | some f => containsSub (query.map lowerByte) (f.map lowerByte)

/-- `KeyService::search`: metadata of the rows whose app name, key name or
description contains the query, case-insensitively. -/
def search (auth : AuthState) (db : List ApiKeyRow) (query : List Nat) :
    Except VaultError (List ApiKeyMetadata) :=
  match require_unlocked auth with
  | .error e => .error e
  | .ok () =>
    .ok ((db.filter fun r =>
      likeField r.app_name query || likeField (some r.key_name) query ||
        likeField r.description query).map toMetadata)

/-- `KeyService::update`: load and decrypt the existing record by id,
merge the requested fields, and re-encrypt under the new context with the
fresh `salt`/`nonce` when the value was supplied or the app/key name
changed; otherwise update metadata columns only.  A `UNIQUE(key_name)`
violation by the `UPDATE` statement surfaces as a `Database` error (the
source only maps `UNIQUE constraint` failures to `DuplicateKey` in
`create`). -/
def update (auth : AuthState) (db : List ApiKeyRow) (id : Nat)
    (request : UpdateKeyRequest) (salt nonce : List Nat) (now : Int) :
    Except VaultError (List ApiKeyRow) :=
  match require_unlocked auth with
  | .error e => .error e
  | .ok () =>
    match get_by_id auth db id with
    | .error e => .error e
    | .ok existing =>
      let new_app_name := match request.app_name with
        | none => existing.app_name
        | some v => v
      let new_key_name := request.key_name.getD existing.key_name
      let new_api_url := match request.api_url with
        | none => existing.api_url
        | some v => v
      let new_description := match request.description with
        | none => existing.description
        | some v => v
      let app_changed := new_app_name != existing.app_name
      let key_changed := new_key_name != existing.key_name
      let needs_reencrypt := request.key_value.isSome || app_changed || key_changed
      if db.any fun r => r.id != id && r.key_name == new_key_name then .error .database
      else if needs_reencrypt then
        let value_to_encrypt := request.key_value.getD existing.key_value
        match auth.vaultKey with
        | none => .error .locked
        | some mk =>
          let ek := encrypt_api_key value_to_encrypt mk (new_app_name.getD [])
            new_key_name salt nonce
          .ok (db.map fun r =>
            if r.id = id then
              { r with
                app_name := new_app_name
                key_name := new_key_name
                api_url := new_api_url
                description := new_description
                encrypted_key_value := ek.1.ciphertext
                nonce := ek.1.nonce
                key_salt := ek.2
                updated_at := now }
            else r)
      else
        .ok (db.map fun r =>
          if r.id = id then
            { r with
              app_name := new_app_name
              key_name := new_key_name
              api_url := new_api_url
              description := new_description
              updated_at := now }
          else r)

/-- `KeyService::delete`: fetch the metadata of the row (`NotFound` when
absent) and remove it; returns the metadata and the remaining rows. -/
def delete (auth : AuthState) (db : List ApiKeyRow) (id : Nat) :
    Except VaultError (ApiKeyMetadata × List ApiKeyRow) :=
  match require_unlocked auth with
  | .error e => .error e
  | .ok () =>
    match db.find? (fun r => r.id == id) with
    | none => .error .notFound
    | some row => .ok (toMetadata row, db.filter fun r => r.id != id)

/-- `KeyService::count`. -/
def count (auth : AuthState) (db : List ApiKeyRow) : Except VaultError Int :=
  match require_unlocked auth with
  | .error e => .error e
  | .ok () => .ok (db.length : Int)

end KeyService

/-- Outcome of running Rust code that may panic: `panicked` marks an
execution that aborts via an index/slice panic rather than returning. -/
inductive PResult (α : Type) where
  | ok : α → PResult α
  | error : DbError → PResult α
  | panicked : PResult α
deriving DecidableEq

/-- `VaultDb::decrypt_row` from `src/database.rs`: builds the 32-byte salt
array with `salt_array.copy_from_slice(&row.key_salt[..32])` — the slice
`&row.key_salt[..32]` panics when the stored salt is shorter than 32
bytes — then derives the per-key key from the row's own context and
decrypts, checking UTF-8.  The model returns the decrypted value (the
surrounding metadata is copied unchanged by the source). -/
def decrypt_row (row : ApiKeyRow) (master_key : List Nat) : PResult (List Nat) :=
  if row.key_salt.length < 32 then .panicked
  else
    let salt_array := row.key_salt.take 32
    let per_key_key := derive_per_key_encryption_key master_key
      (row.app_name.getD []) row.key_name salt_array
    match decrypt ⟨row.encrypted_key_value, row.nonce⟩ per_key_key with
    | .error e => .error (.crypto e)
    | .ok v => if utf8Valid v then .ok v else .error (.crypto .decryption)

/-- The all-zeros "migrated" salt test of `VaultDb::reencrypt_all_keys`. -/
def isDefaultSalt (l : List Nat) : Bool :=
  l.length == 32 && l.all (· == 0)

/-- `VaultDb::reencrypt_all_keys` from `src/database.rs`: walk every row;
a row whose `key_salt` is 32 zero bytes is decrypted **directly with the
master key** (the pre-per-key scheme), given a fresh salt, re-encrypted
under the derived per-key key, and updated; every other row is left
untouched.  Returns the number of re-encrypted rows and the updated rows.
`freshSalt`/`freshNonce` supply the randomness, indexed by how many rows
have been re-encrypted so far; `n` is that running count. -/
def reencrypt_all_keys (master_key : List Nat) (freshSalt freshNonce : Nat → List Nat) :
    List ApiKeyRow → Nat → Except DbError (Nat × List ApiKeyRow)
  | [], n => .ok (n, [])
  | row :: rest, n =>
    if isDefaultSalt row.key_salt then
      match decrypt ⟨row.encrypted_key_value, row.nonce⟩ master_key with
      | .error e => .error (.crypto e)
      | .ok key_value =>
        let key_salt := freshSalt n
        let per_key_key := derive_per_key_encryption_key master_key
          (row.app_name.getD []) row.key_name key_salt
        let new_encrypted := encrypt key_value per_key_key (freshNonce n)
        match reencrypt_all_keys master_key freshSalt freshNonce rest (n + 1) with
        | .error e => .error e
        | .ok (total, rest') =>
          .ok (total,
            { row with
              encrypted_key_value := new_encrypted.ciphertext
              nonce := new_encrypted.nonce
              key_salt := key_salt } :: rest')
    else
      match reencrypt_all_keys master_key freshSalt freshNonce rest n with
      | .error e => .error e
      | .ok (total, rest') => .ok (total, row :: rest')

/-- A row of the v1 `api_keys` table (no `key_salt` column, `app_name`
read as a non-null string, value encrypted directly with the master
key). -/
structure ApiKeyRowV1 where
  id : Nat
  app_name : List Nat
  key_name : List Nat
  api_url : Option (List Nat)
  description : Option (List Nat)
  encrypted_key_value : List Nat
  nonce : List Nat
  created_at : Int
  updated_at : Int
deriving DecidableEq

/-- The per-row transform of `VaultDb::migrate_v1_to_v2`
(`src/database.rs`): each v1 row is copied into the v2 table with its
ciphertext and nonce unchanged and `key_salt` set to `generate_salt()` — a
fresh **random** salt (supplied here through `freshSalt`, indexed by row
position `i`), despite the accompanying comment's talk of a "default
salt". -/
def migrate_v1_to_v2 (freshSalt : Nat → List Nat) :
    List ApiKeyRowV1 → Nat → List ApiKeyRow
  | [], _ => []
  | r :: rest, i =>
    ⟨r.id, some r.app_name, r.key_name, r.api_url, r.description,
      r.encrypted_key_value, r.nonce, freshSalt i, r.created_at, r.updated_at⟩
      :: migrate_v1_to_v2 freshSalt rest (i + 1)

theorem getD_mem_of_ne_nil (l : List Nat) (h : l ≠ []) : l.getD 0 0 ∈ l := by
  cases l with
  | nil => exact absurd rfl h
  | cons a t => rw [List.getD_cons_zero]; exact List.mem_cons_self a t

theorem argon2id_getD_lt (m p l : Nat) (pw s : List Nat) :
    (argon2id m p l pw s).getD 0 0 < 256 := by
  have hne : argon2id m p l pw s ≠ [] := by
    intro hc
    have := argon2id_length m p l pw s
    rw [hc] at this
    simp at this
  exact argon2id_bytes m p l pw s _ (getD_mem_of_ne_nil _ hne)

theorem find?_unique {α : Type} (p : α → Bool) (l : List α) (r : α)
    (hmem : r ∈ l) (hp : p r = true) (huniq : ∀ x ∈ l, p x = true → x = r) :
    l.find? p = some r := by
  induction l with
  | nil => cases hmem
  | cons a t ih =>
    by_cases ha : p a = true
    · rw [List.find?_cons_of_pos _ ha, huniq a (List.mem_cons_self a t) ha]
    · rw [List.find?_cons_of_neg _ (by simpa using ha)]
      have hmem' : r ∈ t := by
        rcases List.mem_cons.mp hmem with h | h
        · exact absurd (h ▸ hp) ha
        · exact h
      exact ih hmem' fun x hx hpx => huniq x (List.mem_cons_of_mem a hx) hpx

theorem find?_append_singleton {α : Type} (p : α → Bool) (l : List α) (x : α)
    (hl : ∀ y ∈ l, p y = false) (hx : p x = true) :
    (l ++ [x]).find? p = some x := by
  induction l with
  | nil => simp [List.find?, hx]
  | cons a t ih =>
    rw [List.cons_append,
      List.find?_cons_of_neg _ (by simp [hl a (List.mem_cons_self a t)])]
    exact ih fun y hy => hl y (List.mem_cons_of_mem a hy)

theorem find?_append_none {α : Type} (p : α → Bool) (l : List α) (x : α)
    (hl : ∀ y ∈ l, p y = false) (hx : p x = false) :
    (l ++ [x]).find? p = none := by
  rw [List.find?_eq_none]
  intro y hy
  rcases List.mem_append.mp hy with h | h
  · simp [hl y h]
  · rw [List.mem_singleton] at h
    simp [h ▸ hx]

/-- The row inserted by `KeyService::create` for the given arguments. -/
def createdRow (mk : List Nat) (app_name : Option (List Nat)) (key_name key_value : List Nat)
    (api_url description : Option (List Nat)) (salt nonce : List Nat) (id : Nat) (now : Int) :
    ApiKeyRow :=
  ⟨id, app_name, key_name, api_url, description,
    (encrypt key_value (derive_per_key_encryption_key mk (app_name.getD []) key_name salt)
      nonce).ciphertext,
    (encrypt key_value (derive_per_key_encryption_key mk (app_name.getD []) key_name salt)
      nonce).nonce,
    salt, now, now⟩

theorem create_ok (auth : AuthState) (db : List ApiKeyRow) (mk : List Nat)
    (app_name : Option (List Nat)) (key_name key_value : List Nat)
    (api_url description : Option (List Nat)) (salt nonce : List Nat) (id : Nat) (now : Int)
    (hA : auth.isUnlocked = true) (hK : auth.vaultKey = some mk)
    (hfresh : ∀ r ∈ db, r.id ≠ id ∧ r.key_name ≠ key_name) :
    KeyService.create auth db app_name key_name key_value api_url description salt nonce id now
      = Except.ok (id, db ++ [createdRow mk app_name key_name key_value api_url description
          salt nonce id now]) := by
  rw [KeyService.create, require_unlocked, if_pos hA, hK]
  have hany : (db.any fun r => r.id == id || r.key_name == key_name) = false := by
    rw [List.any_eq_false]
    intro r hr
    have := hfresh r hr
    simp only [Bool.or_eq_true, beq_iff_eq]
    push_neg
    exact this
  dsimp only
  rw [hany]
  rw [if_neg (by simp)]
  rfl

theorem decrypt_api_key_created (mk : List Nat) (app key_name value salt nonce : List Nat)
    (hv : Bytes value) (hu : utf8Valid value = true) (hn : nonce.length = 12) :
    decrypt_api_key
        ⟨(encrypt value (derive_per_key_encryption_key mk app key_name salt) nonce).ciphertext,
          (encrypt value (derive_per_key_encryption_key mk app key_name salt) nonce).nonce⟩
        mk app key_name salt = Except.ok value := by
  rw [decrypt_api_key]
  have hrt := decrypt_encrypt value (derive_per_key_encryption_key mk app key_name salt) nonce hv hn
  have hed : (⟨(encrypt value (derive_per_key_encryption_key mk app key_name salt) nonce).ciphertext,
      (encrypt value (derive_per_key_encryption_key mk app key_name salt) nonce).nonce⟩ :
      EncryptedData) = encrypt value (derive_per_key_encryption_key mk app key_name salt) nonce :=
    rfl
  rw [hed, hrt]
  dsimp only
  simp [hu]

/-- C8: for every byte string `m`, including the empty string, and every
valid 32-byte key `k`, `decrypt (encrypt m k) k` returns `m` (the fresh
random nonce drawn inside `encrypt` is quantified explicitly). -/
theorem C8_encrypt_decrypt_roundtrip (m k nonce : List Nat) (hm : Bytes m)
    (hk : k.length = 32) (hn : nonce.length = 12) :
    decrypt (encrypt m k nonce) k = Except.ok m :=
  decrypt_encrypt m k nonce hm hn

theorem C8_encrypt_decrypt_roundtrip_witness :
    decrypt (encrypt [] (List.replicate 32 5) (List.replicate 12 9)) (List.replicate 32 5)
        = Except.ok [] ∧
      decrypt (encrypt [104, 105] (List.replicate 32 5) (List.replicate 12 9))
        (List.replicate 32 5) = Except.ok [104, 105] :=
  ⟨C8_encrypt_decrypt_roundtrip [] (List.replicate 32 5) (List.replicate 12 9)
      (by decide) (by decide) (by decide),
    C8_encrypt_decrypt_roundtrip [104, 105] (List.replicate 32 5) (List.replicate 12 9)
      (by decide) (by decide) (by decide)⟩

/-- A stored row whose per-secret salt is empty (shorter than 32 bytes):
the input on which `VaultDb::decrypt_row` panics. -/
def shortSaltRow : ApiKeyRow :=
  ⟨0, none, [107], none, none, [1, 2, 3], List.replicate 12 0, [], 0, 0⟩

/-- C6: `decrypt` itself does return an error (never panics) whenever the
nonce is not exactly 12 bytes — but `VaultDb::decrypt_row` PANICS (via the
slice `&row.key_salt[..32]` in `src/database.rs`) on a stored row whose
per-secret salt is shorter than 32 bytes, instead of returning an error as
the claim states.  The second conjunct evaluates the code at the failing
input. -/
theorem C6_decrypt_row_panics (ed : EncryptedData) (k : List Nat)
    (hn : ed.nonce.length ≠ 12) :
    decrypt ed k = Except.error CryptoError.invalidNonceLength ∧
      decrypt_row shortSaltRow (List.replicate 32 1) = PResult.panicked := by
  constructor
  · rw [decrypt, if_pos hn]
  · rfl

theorem C6_decrypt_row_panics_witness :
    decrypt ⟨[1, 2, 3], [0, 0]⟩ (List.replicate 32 1)
        = Except.error CryptoError.invalidNonceLength ∧
      decrypt_row shortSaltRow (List.replicate 32 1) = PResult.panicked :=
  C6_decrypt_row_panics ⟨[1, 2, 3], [0, 0]⟩ (List.replicate 32 1) (by decide)

/-- C7 counterexample: on a never-initialized vault (fresh service, no
`vault_config` table) `unlock` fails with a `Database` error — the
`SELECT` on the missing table fails to prepare — and NOT with
`NotInitialized` as the claim states.  (The repository's own test
documents this: `src/auth.rs`, `test_unlock_without_initialize_fails`,
"When not initialized, we can't get the salt, so we get Database
error".) -/
theorem C7_not_initialized_counterexample :
    (unlock initialState [49, 50, 51, 52, 53, 54]).1 = Except.error VaultError.database
    ∧ (unlock initialState [49, 50, 51, 52, 53, 54]).1
        ≠ Except.error VaultError.notInitialized :=
  ⟨rfl, fun hc => VaultError.noConfusion (Except.error.inj hc)⟩

/-- C7 (amended): in every reachable state where the vault was never
initialized (the `vault_config` table does not exist), `unlock` fails
with a `Database` error for every PIN — the `SELECT` on the missing
table fails before the `NotInitialized` check (reachability supplies the
invariant that such a state has no failed attempts, so the rate-limit
check cannot pre-empt it); `NotInitialized` is returned only in the
state where the `vault_config` table exists but its singleton row is
absent. -/
theorem C7_unlock_uninitialized_database_error :
    (∀ (st : AuthState), Reachable st → st.configTable = false → ∀ (pin : List Nat),
      (unlock st pin).1 = Except.error VaultError.database)
    ∧ (∀ (st : AuthState), st.failedAttempts < 10 → st.configTable = true →
        st.config = none → ∀ (pin : List Nat),
      (unlock st pin).1 = Except.error VaultError.notInitialized) := by
  constructor
  · intro st h hc pin
    have h0 : st.failedAttempts = 0 := reachable_no_table_attempts st h hc
    rw [unlock, if_neg (by omega), if_pos hc]
  · intro st h10 htab hc pin
    rw [unlock, if_neg (by omega), if_neg (by simp [htab]), hc]

theorem C7_unlock_uninitialized_database_error_witness :
    (unlock initialState [49, 50, 51, 52, 53, 54]).1 = Except.error VaultError.database
    ∧ (unlock ⟨true, none, none, false, 0⟩ [49, 50, 51, 52, 53, 54]).1
        = Except.error VaultError.notInitialized :=
  ⟨C7_unlock_uninitialized_database_error.1 initialState Reachable.start rfl
      [49, 50, 51, 52, 53, 54],
    C7_unlock_uninitialized_database_error.2 ⟨true, none, none, false, 0⟩
      (by decide) rfl rfl [49, 50, 51, 52, 53, 54]⟩

theorem validate_pin_ok_length (pin : List Nat) (h : validate_pin pin = Except.ok ()) :
    ¬ pin.length < 6 := by
  intro hlt
  rw [validate_pin, if_pos hlt] at h
  exact Except.noConfusion h

/-- C2: for a vault initialized with `pin0` and vault salt `salt`,
`unlock pin` succeeds exactly when the FIRST byte of the key derived from
`(pin, salt)` equals the single stored verification byte (the first byte
of the key derived from `(pin0, salt)` at initialization) — the remaining
31 bytes are never compared, which is why roughly 1/256 wrong PINs are
accepted. -/
theorem C2_unlock_single_byte (pin0 salt pin : List Nat) (hs : Bytes salt)
    (hl : salt.length = 32) (hv : validate_pin pin0 = Except.ok ())
    (hp : ¬ pin.length < 6) :
    (unlock (init_vault initialState pin0 salt).2 pin).1 = Except.ok () ↔
      (argon2id 65536 3 4 pin salt).getD 0 0 = (argon2id 65536 3 4 pin0 salt).getD 0 0 := by
  have hp0 : ¬ pin0.length < 6 := validate_pin_ok_length pin0 hv
  have hst : (init_vault initialState pin0 salt).2 =
      ⟨true,
        some ⟨salt, formatPinHash (hexEncode salt) ((argon2id 65536 3 4 pin0 salt).getD 0 0)⟩,
        some (argon2id 65536 3 4 pin0 salt), true, 0⟩ := by
    rw [init_vault, hv]
    dsimp only
    rw [if_neg (by simp [initialState])]
    rw [derive_key_from_pin, if_neg hp0]
    rfl
  rw [hst, unlock]
  dsimp only
  rw [if_neg (by omega)]
  rw [if_neg (by simp)]
  rw [if_neg (by simp [hl])]
  rw [derive_key_from_pin, if_neg hp]
  dsimp only
  rw [parseExpectedByte_format salt hs _
    (by have := argon2id_getD_lt 65536 3 4 pin0 salt; omega)]
  by_cases heq : (argon2id 65536 3 4 pin salt).getD 0 0
      = (argon2id 65536 3 4 pin0 salt).getD 0 0
  · rw [if_neg (not_not_intro heq)]
    exact iff_of_true rfl heq
  · rw [if_pos heq]
    exact iff_of_false (fun hc => Except.noConfusion hc) heq

theorem C2_unlock_single_byte_witness :
    (unlock (init_vault initialState [115, 101, 99, 114, 101, 116]
        (List.replicate 32 3)).2 [115, 101, 99, 114, 101, 116]).1 = Except.ok () ↔
      (argon2id 65536 3 4 [115, 101, 99, 114, 101, 116] (List.replicate 32 3)).getD 0 0 =
        (argon2id 65536 3 4 [115, 101, 99, 114, 101, 116] (List.replicate 32 3)).getD 0 0 :=
  C2_unlock_single_byte [115, 101, 99, 114, 101, 116] (List.replicate 32 3)
    [115, 101, 99, 114, 101, 116] (by decide) (by decide) (by rfl) (by decide)

/-- C5: the failed-attempt counter lifecycle of `AuthService::unlock`:
an unlock attempted once the counter has reached 10 cumulative failures
fails with `TooManyAttempts`; an unlock whose first-byte verification
fails increments the counter by one and returns `InvalidPin`; a
successful unlock resets the counter to 0. -/
theorem C5_failed_attempts_lifecycle :
    (∀ (st : AuthState) (pin : List Nat), st.failedAttempts ≥ 10 →
        (unlock st pin).1 = Except.error VaultError.tooManyAttempts)
    ∧ (∀ (st : AuthState) (cfg : VaultConfigRow) (pin : List Nat),
        st.failedAttempts < 10 → st.configTable = true → st.config = some cfg →
        cfg.salt.length = 32 → ¬ pin.length < 6 →
        (argon2id 65536 3 4 pin cfg.salt).getD 0 0 ≠ parseExpectedByte cfg.pinHash →
        (unlock st pin).1 = Except.error VaultError.invalidPin ∧
          (unlock st pin).2.failedAttempts = st.failedAttempts + 1)
    ∧ (∀ (st : AuthState) (cfg : VaultConfigRow) (pin : List Nat),
        st.failedAttempts < 10 → st.configTable = true → st.config = some cfg →
        cfg.salt.length = 32 → ¬ pin.length < 6 →
        (argon2id 65536 3 4 pin cfg.salt).getD 0 0 = parseExpectedByte cfg.pinHash →
        (unlock st pin).1 = Except.ok () ∧ (unlock st pin).2.failedAttempts = 0) := by
  refine ⟨fun st pin h => ?_, fun st cfg pin h10 htab hcfg hsalt hp hne => ?_,
    fun st cfg pin h10 htab hcfg hsalt hp heq => ?_⟩
  · rw [unlock, if_pos h]
  · rw [unlock, if_neg (by omega), if_neg (by simp [htab]), hcfg]
    dsimp only
    rw [if_neg (by simp [hsalt])]
    rw [derive_key_from_pin, if_neg hp]
    dsimp only
    rw [if_pos hne]
    exact ⟨rfl, rfl⟩
  · rw [unlock, if_neg (by omega), if_neg (by simp [htab]), hcfg]
    dsimp only
    rw [if_neg (by simp [hsalt])]
    rw [derive_key_from_pin, if_neg hp]
    dsimp only
    rw [if_neg (not_not_intro heq)]
    exact ⟨rfl, rfl⟩

theorem C5_failed_attempts_lifecycle_witness :
    (unlock ⟨false, none, none, false, 10⟩ [49, 50, 51, 52, 53, 54]).1
        = Except.error VaultError.tooManyAttempts
    ∧ ((unlock ⟨true, some ⟨List.replicate 32 3, []⟩, none, false, 0⟩
          [113, 113, 113, 113, 113, 113]).1 = Except.error VaultError.invalidPin ∧
        (unlock ⟨true, some ⟨List.replicate 32 3, []⟩, none, false, 0⟩
          [113, 113, 113, 113, 113, 113]).2.failedAttempts = 0 + 1)
    ∧ ((unlock ⟨true, some ⟨List.replicate 32 3,
          formatPinHash (hexEncode (List.replicate 32 3))
            ((argon2id 65536 3 4 [113, 113, 113, 113, 113, 113]
              (List.replicate 32 3)).getD 0 0)⟩, none, false, 0⟩
          [113, 113, 113, 113, 113, 113]).1 = Except.ok () ∧
        (unlock ⟨true, some ⟨List.replicate 32 3,
          formatPinHash (hexEncode (List.replicate 32 3))
            ((argon2id 65536 3 4 [113, 113, 113, 113, 113, 113]
              (List.replicate 32 3)).getD 0 0)⟩, none, false, 0⟩
          [113, 113, 113, 113, 113, 113]).2.failedAttempts = 0) :=
  ⟨C5_failed_attempts_lifecycle.1 ⟨false, none, none, false, 10⟩ [49, 50, 51, 52, 53, 54]
      (by decide),
    C5_failed_attempts_lifecycle.2.1 ⟨true, some ⟨List.replicate 32 3, []⟩, none, false, 0⟩
      ⟨List.replicate 32 3, []⟩ [113, 113, 113, 113, 113, 113]
      (by decide) rfl rfl (by decide) (by decide) (by decide),
    C5_failed_attempts_lifecycle.2.2 _
      ⟨List.replicate 32 3,
        formatPinHash (hexEncode (List.replicate 32 3))
          ((argon2id 65536 3 4 [113, 113, 113, 113, 113, 113]
            (List.replicate 32 3)).getD 0 0)⟩
      [113, 113, 113, 113, 113, 113]
      (by decide) rfl rfl (by decide) (by decide) (by decide)⟩

/-- C9: once a secret with a given `key_name` exists, a second `create`
with the same `key_name` fails with `DuplicateKey` even under a different
(arbitrary) `app_name`: the `UNIQUE(key_name)` constraint is global, not
scoped per app. -/
theorem C9_duplicate_key_name_global (auth : AuthState) (db db1 : List ApiKeyRow)
    (mk : List Nat) (hA : auth.isUnlocked = true) (hK : auth.vaultKey = some mk)
    (app1 app2 : Option (List Nat)) (key_name v1 v2 : List Nat)
    (url1 url2 desc1 desc2 : Option (List Nat)) (s1 n1 s2 n2 : List Nat)
    (id1 id2 : Nat) (t1 t2 : Int)
    (hcreate : KeyService.create auth db app1 key_name v1 url1 desc1 s1 n1 id1 t1
      = Except.ok (id1, db1)) :
    KeyService.create auth db1 app2 key_name v2 url2 desc2 s2 n2 id2 t2
      = Except.error VaultError.duplicateKey := by
  rw [KeyService.create, require_unlocked, if_pos hA, hK] at hcreate
  dsimp only at hcreate
  by_cases hdup : (db.any fun r => r.id == id1 || r.key_name == key_name) = true
  · rw [if_pos hdup] at hcreate
    exact absurd hcreate (by simp)
  · rw [if_neg hdup] at hcreate
    simp only [Except.ok.injEq, Prod.mk.injEq, true_and] at hcreate
    rw [KeyService.create, require_unlocked, if_pos hA, hK]
    dsimp only
    rw [if_pos (by rw [← hcreate]; simp)]

theorem C9_duplicate_key_name_global_witness :
    KeyService.create ⟨false, none, some (List.replicate 32 1), true, 0⟩
        (KeyService.create ⟨false, none, some (List.replicate 32 1), true, 0⟩ []
            (some [103]) [107] [97] none none (List.replicate 32 2) (List.replicate 12 3) 0 0
          |>.toOption.map Prod.snd |>.getD [])
        (some [104]) [107] [98] none none (List.replicate 32 4) (List.replicate 12 5) 1 1
      = Except.error VaultError.duplicateKey := by
  apply C9_duplicate_key_name_global ⟨false, none, some (List.replicate 32 1), true, 0⟩ []
    _ (List.replicate 32 1) rfl rfl (some [103]) (some [104]) [107] [97] [98]
    none none none none (List.replicate 32 2) (List.replicate 12 3)
    (List.replicate 32 4) (List.replicate 12 5) 0 1 0 1
  rfl

/-- C10: a secret created with no `app_name` is stored with a `NULL`
`app_name` (first conjunct); a stored record with `NULL` `app_name` is
returned by `get` with the empty string as `app_name` (second conjunct,
under global `key_name` uniqueness and decryptability of the stored
ciphertext); and the empty-string query never matches a record whose
`app_name` is a non-empty string (third conjunct). -/
theorem C10_null_app_name_empty_string_query :
    (∀ (auth : AuthState) (db : List ApiKeyRow) (key_name key_value : List Nat)
        (api_url description : Option (List Nat)) (salt nonce : List Nat)
        (id id' : Nat) (now : Int) (db' : List ApiKeyRow),
      KeyService.create auth db none key_name key_value api_url description salt nonce id now
          = Except.ok (id', db') →
      ∃ row : ApiKeyRow, db' = db ++ [row] ∧ row.app_name = none ∧ row.key_name = key_name)
    ∧ (∀ (auth : AuthState) (db : List ApiKeyRow) (r : ApiKeyRow) (mk v key_name : List Nat),
      auth.isUnlocked = true → auth.vaultKey = some mk →
      r ∈ db → r.app_name = none → r.key_name = key_name →
      (∀ r' ∈ db, r'.key_name = key_name → r' = r) →
      r.key_salt.length = 32 →
      decrypt_api_key ⟨r.encrypted_key_value, r.nonce⟩ mk [] key_name r.key_salt
          = Except.ok v →
      KeyService.get auth db [] key_name
        = Except.ok ⟨r.id, r.app_name, r.key_name, v, r.api_url, r.description,
            r.created_at, r.updated_at⟩)
    ∧ (∀ (r : ApiKeyRow) (a key_name : List Nat), r.app_name = some a → a ≠ [] →
      rowMatchesQuery r [] key_name = false) := by
  refine ⟨?_, ?_, ?_⟩
  · intro auth db key_name key_value api_url description salt nonce id id' now db' hc
    rw [KeyService.create] at hc
    cases hru : require_unlocked auth with
    | error e => rw [hru] at hc; exact absurd hc (by simp)
    | ok u =>
      cases u
      rw [hru] at hc
      dsimp only at hc
      cases hvk : auth.vaultKey with
      | none => rw [hvk] at hc; exact absurd hc (by simp)
      | some mk =>
        rw [hvk] at hc
        dsimp only at hc
        by_cases hdup : (db.any fun r => r.id == id || r.key_name == key_name) = true
        · rw [if_pos hdup] at hc
          exact absurd hc (by simp)
        · rw [if_neg hdup] at hc
          simp only [Except.ok.injEq, Prod.mk.injEq] at hc
          exact ⟨_, hc.2.symm, rfl, rfl⟩
  · intro auth db r mk v key_name hA hK hmem happ hkn huniq hsalt hdec
    have hmatch : rowMatchesQuery r [] key_name = true := by
      rw [rowMatchesQuery, happ, hkn]
      simp
    have hfind : db.find? (fun x => rowMatchesQuery x [] key_name) = some r := by
      apply find?_unique _ db r hmem hmatch
      intro x hx hpx
      apply huniq x hx
      rw [rowMatchesQuery] at hpx
      simp only [Bool.and_eq_true, beq_iff_eq] at hpx
      exact hpx.2
    rw [KeyService.get, require_unlocked, if_pos hA, hK]
    dsimp only
    rw [hfind]
    dsimp only
    rw [if_pos hsalt]
    rw [show (r.app_name.getD [] : List Nat) = [] from by rw [happ]; rfl, hkn, hdec]
  · intro r a key_name happ hne
    rw [rowMatchesQuery, happ]
    simp only [Bool.and_eq_false_iff]
    left
    simpa using hne

theorem C10_null_app_name_empty_string_query_witness :
    (∃ row : ApiKeyRow,
        (KeyService.create ⟨false, none, some (List.replicate 32 1), true, 0⟩ [] none
            [107] [97] none none (List.replicate 32 2) (List.replicate 12 3) 0 0
          |>.toOption.map Prod.snd |>.getD []) = [] ++ [row] ∧
        row.app_name = none ∧ row.key_name = [107])
    ∧ (KeyService.get ⟨false, none, some (List.replicate 32 1), true, 0⟩
        [createdRow (List.replicate 32 1) none [107] [97] none none
          (List.replicate 32 2) (List.replicate 12 3) 0 0] [] [107]
      = Except.ok ⟨0, none, [107], [97], none, none, 0, 0⟩)
    ∧ rowMatchesQuery ⟨5, some [103], [107], none, none, [], [], [], 0, 0⟩ [] [107] = false := by
  refine ⟨?_, ?_, ?_⟩
  · apply C10_null_app_name_empty_string_query.1 ⟨false, none, some (List.replicate 32 1), true, 0⟩
      [] [107] [97] none none (List.replicate 32 2) (List.replicate 12 3) 0 0 0
    rfl
  · exact C10_null_app_name_empty_string_query.2.1
      ⟨false, none, some (List.replicate 32 1), true, 0⟩
      [createdRow (List.replicate 32 1) none [107] [97] none none
        (List.replicate 32 2) (List.replicate 12 3) 0 0]
      (createdRow (List.replicate 32 1) none [107] [97] none none
        (List.replicate 32 2) (List.replicate 12 3) 0 0)
      (List.replicate 32 1) [97] [107] rfl rfl
      (List.mem_singleton.mpr rfl) rfl rfl
      (fun r' hr' _ => List.mem_singleton.mp hr')
      (by decide)
      (decrypt_api_key_created (List.replicate 32 1) [] [107] [97]
        (List.replicate 32 2) (List.replicate 12 3) (by decide) (by decide) (by decide))
  · exact C10_null_app_name_empty_string_query.2.2
      ⟨5, some [103], [107], none, none, [], [], [], 0, 0⟩ [103] [107] rfl (by decide)

/-- C4: every `KeyService` operation (`create`, `get`, `get_by_id`,
`list`, `search`, `update`, `delete`, `count`) fails with `Locked` when
the auth session is not unlocked; and while unlocked each operation
succeeds provided its own preconditions hold (fresh names for `create`; a
matching, decryptable row for `get`/`get_by_id`/`update`; a row with the
given id for `delete`; no precondition for `list`/`search`/`count`). -/
theorem C4_locked_gate :
    (∀ (auth : AuthState), auth.isUnlocked = false →
      (∀ db app kn v url desc s n id t,
        KeyService.create auth db app kn v url desc s n id t = Except.error VaultError.locked)
      ∧ (∀ db a kn, KeyService.get auth db a kn = Except.error VaultError.locked)
      ∧ (∀ db id, KeyService.get_by_id auth db id = Except.error VaultError.locked)
      ∧ (∀ db, KeyService.list auth db = Except.error VaultError.locked)
      ∧ (∀ db q, KeyService.search auth db q = Except.error VaultError.locked)
      ∧ (∀ db id req s n t,
        KeyService.update auth db id req s n t = Except.error VaultError.locked)
      ∧ (∀ db id, KeyService.delete auth db id = Except.error VaultError.locked)
      ∧ (∀ db, KeyService.count auth db = Except.error VaultError.locked))
    ∧ (∀ (auth : AuthState) (mk : List Nat), auth.isUnlocked = true →
        auth.vaultKey = some mk →
      (∀ (db : List ApiKeyRow) app kn v url desc s n id t,
        (∀ r ∈ db, r.id ≠ id ∧ r.key_name ≠ kn) →
        KeyService.create auth db app kn v url desc s n id t
          = Except.ok (id, db ++ [createdRow mk app kn v url desc s n id t]))
      ∧ (∀ (db : List ApiKeyRow) (a kn v : List Nat) (row : ApiKeyRow),
        db.find? (fun r => rowMatchesQuery r a kn) = some row →
        row.key_salt.length = 32 →
        decrypt_api_key ⟨row.encrypted_key_value, row.nonce⟩ mk
          (row.app_name.getD []) row.key_name row.key_salt = Except.ok v →
        KeyService.get auth db a kn = Except.ok ⟨row.id, row.app_name, row.key_name, v,
          row.api_url, row.description, row.created_at, row.updated_at⟩)
      ∧ (∀ (db : List ApiKeyRow) (id : Nat) (v : List Nat) (row : ApiKeyRow),
        db.find? (fun r => r.id == id) = some row →
        row.key_salt.length = 32 →
        decrypt_api_key ⟨row.encrypted_key_value, row.nonce⟩ mk
          (row.app_name.getD []) row.key_name row.key_salt = Except.ok v →
        KeyService.get_by_id auth db id = Except.ok ⟨row.id, row.app_name, row.key_name, v,
          row.api_url, row.description, row.created_at, row.updated_at⟩)
      ∧ (∀ db, KeyService.list auth db = Except.ok (db.map toMetadata))
      ∧ (∀ db q, ∃ ms, KeyService.search auth db q = Except.ok ms)
      ∧ (∀ (db : List ApiKeyRow) (id : Nat) (k : ApiKey) (s n : List Nat) (t : Int),
        KeyService.get_by_id auth db id = Except.ok k →
        (∀ r ∈ db, r.id ≠ id → r.key_name ≠ k.key_name) →
        ∃ db', KeyService.update auth db id ⟨none, none, none, none, none⟩ s n t
          = Except.ok db')
      ∧ (∀ (db : List ApiKeyRow) (id : Nat) (row : ApiKeyRow),
        db.find? (fun r => r.id == id) = some row →
        KeyService.delete auth db id
          = Except.ok (toMetadata row, db.filter fun r => r.id != id))
      ∧ (∀ db, KeyService.count auth db = Except.ok (db.length : Int))) := by
  constructor
  · intro auth h
    have hru : require_unlocked auth = Except.error VaultError.locked := by
      rw [require_unlocked, if_neg (by simp [h])]
    refine ⟨?_, ?_, ?_, ?_, ?_, ?_, ?_, ?_⟩
    · intro db app kn v url desc s n id t
      rw [KeyService.create, hru]
    · intro db a kn
      rw [KeyService.get, hru]
    · intro db id
      rw [KeyService.get_by_id, hru]
    · intro db
      rw [KeyService.list, hru]
    · intro db q
      rw [KeyService.search, hru]
    · intro db id req s n t
      rw [KeyService.update, hru]
    · intro db id
      rw [KeyService.delete, hru]
    · intro db
      rw [KeyService.count, hru]
  · intro auth mk hA hK
    have hru : require_unlocked auth = Except.ok () := by
      rw [require_unlocked, if_pos hA]
    refine ⟨?_, ?_, ?_, ?_, ?_, ?_, ?_, ?_⟩
    · intro db app kn v url desc s n id t hfresh
      exact create_ok auth db mk app kn v url desc s n id t hA hK hfresh
    · intro db a kn v row hfind hsalt hdec
      rw [KeyService.get, hru, hK]
      dsimp only
      rw [hfind]
      dsimp only
      rw [if_pos hsalt, hdec]
    · intro db id v row hfind hsalt hdec
      rw [KeyService.get_by_id, hru, hK]
      dsimp only
      rw [hfind]
      dsimp only
      rw [if_pos hsalt, hdec]
    · intro db
      rw [KeyService.list, hru]
    · intro db q
      exact ⟨_, by rw [KeyService.search, hru]⟩
    · intro db id k s n t hget huniq
      rw [KeyService.update, hru]
      dsimp only
      rw [hget]
      dsimp only
      simp only [Option.getD_none, Option.isSome_none]
      have hany : (db.any fun r => r.id != id && r.key_name == k.key_name) = false := by
        rw [List.any_eq_false]
        intro r hr
        simp only [Bool.and_eq_true, bne_iff_ne, beq_iff_eq, not_and]
        intro hne
        exact huniq r hr hne
      rw [hany]
      rw [if_neg (by simp)]
      rw [if_neg (by simp)]
      exact ⟨_, rfl⟩
    · intro db id row hfind
      rw [KeyService.delete, hru]
      dsimp only
      rw [hfind]
    · intro db
      rw [KeyService.count, hru]

/-- Concrete unlocked auth state used by the C4 witness. -/
def c4Auth : AuthState := ⟨false, none, some (List.replicate 32 1), true, 0⟩

/-- Concrete stored row used by the C4 witness. -/
def c4Row : ApiKeyRow :=
  createdRow (List.replicate 32 1) (some [103]) [107] [97] none none
    (List.replicate 32 2) (List.replicate 12 3) 0 0

theorem C4_locked_gate_witness :
    KeyService.create ⟨false, none, none, false, 0⟩ [] none [107] [97] none none [] [] 0 0
        = Except.error VaultError.locked
    ∧ KeyService.list c4Auth [c4Row] = Except.ok ([c4Row].map toMetadata)
    ∧ KeyService.get c4Auth [c4Row] [103] [107]
        = Except.ok ⟨0, some [103], [107], [97], none, none, 0, 0⟩
    ∧ (∃ db', KeyService.update c4Auth [c4Row] 0 ⟨none, none, none, none, none⟩
        (List.replicate 32 4) (List.replicate 12 5) 1 = Except.ok db')
    ∧ KeyService.delete c4Auth [c4Row] 0
        = Except.ok (toMetadata c4Row, [c4Row].filter fun r => r.id != 0)
    ∧ KeyService.count c4Auth [c4Row] = Except.ok 1 := by
  have hdec := decrypt_api_key_created (List.replicate 32 1) [103] [107] [97]
    (List.replicate 32 2) (List.replicate 12 3) (by decide) (by decide) (by decide)
  refine ⟨(C4_locked_gate.1 ⟨false, none, none, false, 0⟩ rfl).1 [] none [107] [97] none none [] [] 0 0,
    (C4_locked_gate.2 c4Auth (List.replicate 32 1) rfl rfl).2.2.2.1 [c4Row],
    (C4_locked_gate.2 c4Auth (List.replicate 32 1) rfl rfl).2.1 [c4Row] [103] [107] [97]
      c4Row rfl (by decide) hdec,
    ?_,
    (C4_locked_gate.2 c4Auth (List.replicate 32 1) rfl rfl).2.2.2.2.2.2.1 [c4Row] 0 c4Row rfl,
    (C4_locked_gate.2 c4Auth (List.replicate 32 1) rfl rfl).2.2.2.2.2.2.2 [c4Row]⟩
  have hget := (C4_locked_gate.2 c4Auth (List.replicate 32 1) rfl rfl).2.2.1 [c4Row] 0 [97]
    c4Row rfl (by decide) hdec
  exact (C4_locked_gate.2 c4Auth (List.replicate 32 1) rfl rfl).2.2.2.2.2.1 [c4Row] 0
    ⟨0, some [103], [107], [97], none, none, 0, 0⟩ (List.replicate 32 4) (List.replicate 12 5) 1
    hget
    (by
      intro r hr hne
      rw [List.mem_singleton.mp hr] at hne
      exact absurd rfl hne)

theorem get_notFound_of_find_none (auth : AuthState) (db : List ApiKeyRow)
    (a kn mk : List Nat) (hA : auth.isUnlocked = true) (hK : auth.vaultKey = some mk)
    (hfind : db.find? (fun r => rowMatchesQuery r a kn) = none) :
    KeyService.get auth db a kn = Except.error VaultError.notFound := by
  rw [KeyService.get, require_unlocked, if_pos hA, hK]
  dsimp only
  rw [hfind]

theorem get_ok_of_find (auth : AuthState) (db : List ApiKeyRow) (a kn v : List Nat)
    (row : ApiKeyRow) (mk : List Nat) (hA : auth.isUnlocked = true)
    (hK : auth.vaultKey = some mk)
    (hfind : db.find? (fun r => rowMatchesQuery r a kn) = some row)
    (hsalt : row.key_salt.length = 32)
    (hdec : decrypt_api_key ⟨row.encrypted_key_value, row.nonce⟩ mk (row.app_name.getD [])
      row.key_name row.key_salt = Except.ok v) :
    KeyService.get auth db a kn = Except.ok ⟨row.id, row.app_name, row.key_name, v,
      row.api_url, row.description, row.created_at, row.updated_at⟩ := by
  rw [KeyService.get, require_unlocked, if_pos hA, hK]
  dsimp only
  rw [hfind]
  dsimp only
  rw [if_pos hsalt, hdec]

theorem get_by_id_ok_of_find (auth : AuthState) (db : List ApiKeyRow) (id : Nat)
    (v : List Nat) (row : ApiKeyRow) (mk : List Nat) (hA : auth.isUnlocked = true)
    (hK : auth.vaultKey = some mk)
    (hfind : db.find? (fun r => r.id == id) = some row)
    (hsalt : row.key_salt.length = 32)
    (hdec : decrypt_api_key ⟨row.encrypted_key_value, row.nonce⟩ mk (row.app_name.getD [])
      row.key_name row.key_salt = Except.ok v) :
    KeyService.get_by_id auth db id = Except.ok ⟨row.id, row.app_name, row.key_name, v,
      row.api_url, row.description, row.created_at, row.updated_at⟩ := by
  rw [KeyService.get_by_id, require_unlocked, if_pos hA, hK]
  dsimp only
  rw [hfind]
  dsimp only
  rw [if_pos hsalt, hdec]

theorem map_ite_append {α : Type} (db : List α) (x : α) (idOf : α → Nat) (id : Nat)
    (f : α → α) (hdb : ∀ r ∈ db, idOf r ≠ id) (hx : idOf x = id) :
    (db ++ [x]).map (fun r => if idOf r = id then f r else r) = db ++ [f x] := by
  rw [List.map_append]
  have h1 : db.map (fun r => if idOf r = id then f r else r) = db := by
    induction db with
    | nil => rfl
    | cons a t ih =>
      rw [List.map_cons, if_neg (hdb a (List.mem_cons_self a t)),
        ih fun r hr => hdb r (List.mem_cons_of_mem a hr)]
  rw [h1]
  simp [hx]

theorem rowMatchesQuery_false_of_kn (r : ApiKeyRow) (q kn : List Nat)
    (h : r.key_name ≠ kn) : rowMatchesQuery r q kn = false := by
  rw [rowMatchesQuery, Bool.and_eq_false_iff]
  right
  exact beq_eq_false_iff_ne.mpr h

/-- The row that `KeyService::update` writes when a rename forces
re-encryption of value `v` under the new `(app1, kn1)` context with fresh
salt `s1` and nonce `n1`. -/
def renameReencryptedRow (mk : List Nat) (app1 : Option (List Nat)) (kn1 v s1 n1 : List Nat)
    (url desc : Option (List Nat)) (t1 : Int) (r : ApiKeyRow) : ApiKeyRow :=
  { r with
    app_name := app1
    key_name := kn1
    api_url := url
    description := desc
    encrypted_key_value := (encrypt_api_key v mk (app1.getD []) kn1 s1 n1).1.ciphertext
    nonce := (encrypt_api_key v mk (app1.getD []) kn1 s1 n1).1.nonce
    key_salt := (encrypt_api_key v mk (app1.getD []) kn1 s1 n1).2
    updated_at := t1 }

/-- C3 (amended): for a secret created as `(app0, kn0)` with value `v`,
after `update` changes the name pair to `(app1, kn1)`, `get` with the old
pair fails `NotFound` and `get` with the new pair returns `v` — PROVIDED
the old and new pairs denote different lookup keys, i.e.
`(app1.getD "", kn1) ≠ (app0.getD "", kn0)` (a `NULL` app name and the
empty-string app name are the same lookup key; renaming `Some("")` to
`None` or back is a change the claim's old-pair clause fails on, see the
counterexample). -/
theorem C3_rename_reencrypts (auth : AuthState) (db : List ApiKeyRow) (mk : List Nat)
    (app0 app1 : Option (List Nat)) (kn0 kn1 v : List Nat)
    (url desc : Option (List Nat)) (s0 n0 s1 n1 : List Nat) (id : Nat) (t0 t1 : Int)
    (row0 : ApiKeyRow) (hrow : row0 = createdRow mk app0 kn0 v url desc s0 n0 id t0)
    (hA : auth.isUnlocked = true) (hK : auth.vaultKey = some mk)
    (hv : Bytes v) (hu : utf8Valid v = true)
    (hs0 : s0.length = 32) (hn0 : n0.length = 12)
    (hs1 : s1.length = 32) (hn1 : n1.length = 12)
    (hfresh : ∀ r ∈ db, r.id ≠ id ∧ r.key_name ≠ kn0 ∧ r.key_name ≠ kn1)
    (hpair : (app1.getD [], kn1) ≠ (app0.getD [], kn0)) :
    ∃ db2,
      KeyService.update auth (db ++ [row0]) id ⟨some app1, some kn1, none, none, none⟩
          s1 n1 t1 = Except.ok db2
      ∧ KeyService.get auth db2 (app0.getD []) kn0 = Except.error VaultError.notFound
      ∧ ∃ k : ApiKey, KeyService.get auth db2 (app1.getD []) kn1 = Except.ok k
          ∧ k.key_value = v := by
  have hid : row0.id = id := by rw [hrow]; rfl
  have happ0 : row0.app_name = app0 := by rw [hrow]; rfl
  have hkn0 : row0.key_name = kn0 := by rw [hrow]; rfl
  have hfind0 : (db ++ [row0]).find? (fun r => r.id == id) = some row0 := by
    apply find?_append_singleton
    · intro y hy
      exact beq_eq_false_iff_ne.mpr (hfresh y hy).1
    · exact beq_iff_eq.mpr hid
  have hdec0 : decrypt_api_key ⟨row0.encrypted_key_value, row0.nonce⟩ mk
      (row0.app_name.getD []) row0.key_name row0.key_salt = Except.ok v := by
    rw [hrow]
    exact decrypt_api_key_created mk (app0.getD []) kn0 v s0 n0 hv hu hn0
  have hget : KeyService.get_by_id auth (db ++ [row0]) id
      = Except.ok ⟨id, app0, kn0, v, url, desc, t0, t0⟩ := by
    have h := get_by_id_ok_of_find auth (db ++ [row0]) id v row0 mk hA hK hfind0
      (by rw [hrow]; exact hs0) hdec0
    rw [hid, happ0, hkn0] at h
    rw [h, hrow]
    rfl
  have hne : ((app1 != app0) || (kn1 != kn0)) = true := by
    by_cases ha : app1 = app0
    · have hkk : kn1 ≠ kn0 := fun hc => hpair (by rw [ha, hc])
      simp [bne_iff_ne, hkk]
    · simp [bne_iff_ne, ha]
  have hany : ((db ++ [row0]).any fun r => r.id != id && r.key_name == kn1) = false := by
    rw [List.any_eq_false]
    intro r hr
    rcases List.mem_append.mp hr with h | h
    · simp only [Bool.and_eq_true, bne_iff_ne, beq_iff_eq, not_and]
      intro _
      exact (hfresh r h).2.2
    · rw [List.mem_singleton] at h
      subst h
      simp [hid]
  have hupd : KeyService.update auth (db ++ [row0]) id ⟨some app1, some kn1, none, none, none⟩
      s1 n1 t1 = Except.ok (db ++ [renameReencryptedRow mk app1 kn1 v s1 n1 url desc t1 row0]) := by
    rw [KeyService.update, require_unlocked, if_pos hA]
    dsimp only
    rw [hget]
    dsimp only
    simp only [Option.getD_some, Option.getD_none, Option.isSome_none, Bool.false_or]
    rw [hany]
    rw [if_neg (by simp)]
    rw [if_pos hne, hK]
    dsimp only
    exact congrArg Except.ok (map_ite_append db row0 ApiKeyRow.id id
      (renameReencryptedRow mk app1 kn1 v s1 n1 url desc t1)
      (fun r hr => (hfresh r hr).1) hid)
  refine ⟨db ++ [renameReencryptedRow mk app1 kn1 v s1 n1 url desc t1 row0], hupd, ?_, ?_⟩
  · apply get_notFound_of_find_none auth _ _ _ mk hA hK
    apply find?_append_none
    · intro y hy
      exact rowMatchesQuery_false_of_kn y _ _ (hfresh y hy).2.1
    · have hu_app : (renameReencryptedRow mk app1 kn1 v s1 n1 url desc t1 row0).app_name
          = app1 := rfl
      have hu_kn : (renameReencryptedRow mk app1 kn1 v s1 n1 url desc t1 row0).key_name
          = kn1 := rfl
      rw [rowMatchesQuery, hu_app, hu_kn]
      by_cases hkk : kn1 = kn0
      · subst hkk
        have hqa : app1.getD [] ≠ app0.getD [] := fun hc => hpair (by rw [hc])
        rw [Bool.and_eq_false_iff]
        left
        cases app1 with
        | some a =>
          dsimp only
          exact beq_eq_false_iff_ne.mpr (by simpa using hqa)
        | none =>
          dsimp only
          exact beq_eq_false_iff_ne.mpr
            (by simp only [Option.getD_none] at hqa; exact fun hc => hqa hc.symm)
      · rw [Bool.and_eq_false_iff]
        right
        exact beq_eq_false_iff_ne.mpr hkk
  · have hfindnew : (db ++ [renameReencryptedRow mk app1 kn1 v s1 n1 url desc t1 row0]).find?
        (fun r => rowMatchesQuery r (app1.getD []) kn1)
        = some (renameReencryptedRow mk app1 kn1 v s1 n1 url desc t1 row0) := by
      apply find?_append_singleton
      · intro y hy
        exact rowMatchesQuery_false_of_kn y _ _ (hfresh y hy).2.2
      · have hu_app : (renameReencryptedRow mk app1 kn1 v s1 n1 url desc t1 row0).app_name
            = app1 := rfl
        have hu_kn : (renameReencryptedRow mk app1 kn1 v s1 n1 url desc t1 row0).key_name
            = kn1 := rfl
        rw [rowMatchesQuery, hu_app, hu_kn]
        cases app1 <;> simp
    refine ⟨_, get_ok_of_find auth _ (app1.getD []) kn1 v _ mk hA hK hfindnew
      (by rw [renameReencryptedRow]; exact hs1) ?_, rfl⟩
    show decrypt_api_key ⟨(encrypt_api_key v mk (app1.getD []) kn1 s1 n1).1.ciphertext,
        (encrypt_api_key v mk (app1.getD []) kn1 s1 n1).1.nonce⟩ mk (app1.getD []) kn1 s1
        = Except.ok v
    exact decrypt_api_key_created mk (app1.getD []) kn1 v s1 n1 hv hu hn1

/-- The store after creating a secret with `app_name = Some("")`,
`key_name = "k"` (byte 107) and value `"a"` (byte 97). -/
def c3Db1 : List ApiKeyRow :=
  ((KeyService.create ⟨false, none, some (List.replicate 32 1), true, 0⟩ []
      (some []) [107] [97] none none (List.replicate 32 2) (List.replicate 12 3) 0
      0).toOption.map Prod.snd).getD []

/-- The store after `update` changes that secret's `app_name` from
`Some("")` to `None` (a change of the record's `app_name`, forcing
re-encryption). -/
def c3Db2 : List ApiKeyRow :=
  (KeyService.update ⟨false, none, some (List.replicate 32 1), true, 0⟩ c3Db1 0
      ⟨some none, none, none, none, none⟩ (List.replicate 32 4) (List.replicate 12 5)
      1).toOption.getD []

set_option maxRecDepth 100000 in
/-- C3 counterexample: a secret is created with `app_name = Some("")`;
`update` then changes `app_name` to `None` — the record's `app_name`
changes (conjuncts 3 and 4) and the update succeeds (conjunct 2) — yet
`get` with the OLD `(app_name, key_name)` pair `("", "k")` still returns
the original plaintext instead of failing with `NotFound` (conjunct 5),
because a `NULL` app name and the empty-string app name denote the same
lookup key. -/
theorem C3_rename_old_pair_counterexample :
    KeyService.create ⟨false, none, some (List.replicate 32 1), true, 0⟩ []
        (some []) [107] [97] none none (List.replicate 32 2) (List.replicate 12 3) 0 0
      = Except.ok (0, c3Db1)
    ∧ KeyService.update ⟨false, none, some (List.replicate 32 1), true, 0⟩ c3Db1 0
        ⟨some none, none, none, none, none⟩ (List.replicate 32 4) (List.replicate 12 5) 1
      = Except.ok c3Db2
    ∧ c3Db1.map ApiKeyRow.app_name = [some []]
    ∧ c3Db2.map ApiKeyRow.app_name = [none]
    ∧ KeyService.get ⟨false, none, some (List.replicate 32 1), true, 0⟩ c3Db2 [] [107]
      = Except.ok ⟨0, none, [107], [97], none, none, 0, 1⟩ :=
  ⟨rfl, rfl, rfl, rfl, rfl⟩

theorem C3_rename_reencrypts_witness :
    ∃ db2,
      KeyService.update ⟨false, none, some (List.replicate 32 1), true, 0⟩
          [createdRow (List.replicate 32 1) (some [103]) [107] [97] none none
            (List.replicate 32 2) (List.replicate 12 3) 0 0] 0
          ⟨some (some [104]), some [108], none, none, none⟩
          (List.replicate 32 4) (List.replicate 12 5) 1 = Except.ok db2
      ∧ KeyService.get ⟨false, none, some (List.replicate 32 1), true, 0⟩ db2 [103] [107]
          = Except.error VaultError.notFound
      ∧ ∃ k : ApiKey, KeyService.get ⟨false, none, some (List.replicate 32 1), true, 0⟩ db2
            [104] [108] = Except.ok k ∧ k.key_value = [97] :=
  C3_rename_reencrypts ⟨false, none, some (List.replicate 32 1), true, 0⟩ [] (List.replicate 32 1)
    (some [103]) (some [104]) [107] [108] [97] none none
    (List.replicate 32 2) (List.replicate 12 3) (List.replicate 32 4) (List.replicate 12 5)
    0 0 1 _ rfl rfl rfl (by decide) (by decide) (by decide) (by decide) (by decide) (by decide)
    (fun r hr => absurd hr (List.not_mem_nil r)) (by decide)

/-- Master key used by the C1 evaluation. -/
def c1Mk : List Nat := List.replicate 32 1

/-- A v1 store row: value `"a"` encrypted DIRECTLY with the master key
(the pre-per-key scheme) and no per-secret salt column. -/
def c1V1Row : ApiKeyRowV1 :=
  ⟨0, [103], [107], none, none,
    (encrypt [97] c1Mk (List.replicate 12 2)).ciphertext, List.replicate 12 2, 0, 0⟩

/-- The v2 row that `migrate_v1_to_v2` produces from `c1V1Row` when the
fresh random salt it draws is 32 bytes of 7: ciphertext and nonce carried
over unchanged, `key_salt` set to the random (non-zero) salt. -/
def c1Row2 : ApiKeyRow :=
  ⟨0, some [103], [107], none, none,
    (encrypt [97] c1Mk (List.replicate 12 2)).ciphertext, List.replicate 12 2,
    List.replicate 32 7, 0, 0⟩

set_option maxRecDepth 100000 in
/-- C1: evaluation at the failing input.  The v1→v2 migration stores a
fresh RANDOM per-secret salt on every carried-over row (conjunct 1), so
the salt is not the all-zero "default" salt (conjunct 2) even though the
row is still encrypted under the prior master-key-direct scheme
(conjunct 3, the row decrypts directly with the master key); therefore
`reencrypt_all_keys` — which re-encrypts exactly the rows whose stored
salt is 32 zero bytes — skips the migrated row: it returns 0 re-encrypted
records and leaves the store unchanged (conjunct 4), contradicting the
claim that one call re-encrypts every record carried over by the
migration. -/
theorem C1_migrated_row_not_reencrypted :
    migrate_v1_to_v2 (fun _ => List.replicate 32 7) [c1V1Row] 0 = [c1Row2]
    ∧ isDefaultSalt c1Row2.key_salt = false
    ∧ decrypt ⟨c1Row2.encrypted_key_value, c1Row2.nonce⟩ c1Mk = Except.ok [97]
    ∧ reencrypt_all_keys c1Mk (fun _ => List.replicate 32 8) (fun _ => List.replicate 12 9)
        [c1Row2] 0 = Except.ok (0, [c1Row2]) :=
  ⟨rfl, by decide, decrypt_encrypt [97] c1Mk (List.replicate 12 2) (by decide) (by decide),
    rfl⟩
